import Mathlib

/-!
Verification development for the capital-structure fan-chart core:
the percentage allocation model (`normalizeSegments`, single-item percent
updates, segment insertion) and the trapezoid tessellation engine
(`calculateRatioForArea`, `calculateActualArea`, per-segment polygon
construction, layer vertical partitioning).

Numbers are modelled as exact rationals (ℚ).  JavaScript division producing
a non-finite result (NaN from `0/0`, or ±Infinity from `x/0`) is modelled
by `jsdiv`, which returns `none` exactly when the denominator is zero; all
other arithmetic in the translated code paths is finite whenever its inputs
are.
-/

namespace CapStruct

/-- Model of a chart segment (`src/lib/chart-types.ts`): `percent` as an
exact rational, the other fields carried through unchanged. -/
structure Segment where
  id : String
  label : String
  percent : ℚ
  color : String
  deriving DecidableEq, Repr

/-- The exported `normalizeSegments` of `src/lib/chart-types.ts`:
sum all percents; if the total is 0 return the input unchanged, otherwise
rescale every percent to `percent / total * 100`. -/
def normalizeSegments (segments : List Segment) : List Segment :=
  let total := (segments.map Segment.percent).sum
  if total = 0 then segments
  else segments.map (fun s => { s with percent := s.percent / total * 100 })

/-- The local `normalizeSegments` inside the draggable segment panel
(`src/components/control-panel.tsx`, second document): an explicit empty
check, then the same total test and rescale. -/
def panelNormalizeSegments (segments : List Segment) : List Segment :=
  if segments.length = 0 then []
  else
    let total := (segments.map Segment.percent).sum
    if total = 0 then segments
    else segments.map (fun s => { s with percent := s.percent / total * 100 })

/-- Clamp of a percent edit to `[0,100]`:
`Math.max(0, Math.min(100, newPercent))`. -/
def clampPercent (p : ℚ) : ℚ := max 0 (min 100 p)

/-- Sum over a percent list of every entry except the one at the given
index (the `reduce` with an index test in `handleUpdateSegment` /
`handleUpdateLayerPercent`). -/
def sumExcept : List ℚ → ℕ → ℚ
  | [], _ => 0
  | _ :: xs, 0 => xs.sum
  | x :: xs, n + 1 => x + sumExcept xs n

/-- Scale factor applied to the non-target items:
`otherTotal > 0 ? (100 - clamped) / otherTotal : 0`. -/
def scaleFactor (otherTotal clamped : ℚ) : ℚ :=
  if 0 < otherTotal then (100 - clamped) / otherTotal else 0

/-- Map over a percent list that writes `c` at the given index and
multiplies every other entry by `s` (the `map` with an index test in
`handleUpdateSegment`). -/
def applyUpdate : List ℚ → ℕ → ℚ → ℚ → List ℚ
  | [], _, _, _ => []
  | _ :: xs, 0, c, s => c :: xs.map (fun x => x * s)
  | x :: xs, n + 1, c, s => x * s :: applyUpdate xs n c s

/-- `handleUpdateSegment` on the `percent` field
(`src/components/control-panel.tsx`): clamp the new percent to `[0,100]`,
sum the other segments, rescale them by `(100 - clamped) / otherTotal`
(0 when that total is not positive) and write the clamped value at the
target index.  The target segment is identified by its index, as in the
source. -/
def updateSegmentPercent (ps : List ℚ) (i : ℕ) (p : ℚ) : List ℚ :=
  let c := clampPercent p
  let oT := sumExcept ps i
  applyUpdate ps i c (scaleFactor oT c)

/-- `handleUpdateLayerPercent` (`src/components/control-panel.tsx`): the
same algorithm applied to the layers' optional `percent` fields, with a
missing percent read as 0 (`layer.percent || 0`).  The target layer is
selected by id in the source; it is modelled here by the index of that
unique id. -/
def updateLayerPercent (ls : List (Option ℚ)) (i : ℕ) (p : ℚ) : List ℚ :=
  let c := clampPercent p
  let oT := sumExcept (ls.map (fun o => o.getD 0)) i
  applyUpdate (ls.map (fun o => o.getD 0)) i c (scaleFactor oT c)

/-- `handleAddSegment` (`src/components/control-panel.tsx`), on the percent
list of one layer: the new segment takes 10 percent, the existing segments
are scaled by `(100 - 10) / totalExisting` (0 when the existing total is
not positive), and the new segment is appended after them. -/
def addSegmentPercents (ps : List ℚ) : List ℚ :=
  let newSegmentPercent : ℚ := 10
  let totalExistingPercent := ps.sum
  let s :=
    if 0 < totalExistingPercent then (100 - newSegmentPercent) / totalExistingPercent
    else 0
  ps.map (fun x => x * s) ++ [newSegmentPercent]

/-- JavaScript floating-point division with a zero denominator is not
finite (`0/0 = NaN`, `x/0 = ±Infinity`); `jsdiv` returns `none` in exactly
that case and the exact quotient otherwise. -/
def jsdiv (a b : ℚ) : Option ℚ := if b = 0 then none else some (a / b)

/-- `calculateRatioForArea` (`src/components/control-panel.tsx`,
`renderLayer`): clamp the cumulative fraction to `[0,1]` (returning ratio 0
and 1 at the ends), otherwise invert the cumulative-area function.  If the
target area fits in the triangle over the top edge the ratio is
`targetArea / maxTopEdgeArea`; otherwise the remainder is placed on the
right edge and the ratio is `1 + min 1 s` with
`s = remainingArea / (0.5 * bottomWidth * layerHeight)`. -/
def calculateRatioForArea (layerHeight topWidth bottomWidth f : ℚ) : Option ℚ :=
  if f ≤ 0 then some 0
  else if 1 ≤ f then some 1
  else
    let totalArea := 1/2 * layerHeight * (topWidth + bottomWidth)
    let targetArea := f * totalArea
    let maxTopEdgeArea := 1/2 * layerHeight * topWidth
    if targetArea ≤ maxTopEdgeArea then
      jsdiv targetArea maxTopEdgeArea
    else
      (jsdiv (targetArea - maxTopEdgeArea) (1/2 * bottomWidth * layerHeight)).map
        (fun s => 1 + min 1 s)

/-- `calculateActualArea` (`src/components/control-panel.tsx`,
`renderLayer`): cumulative area swept from the origin up to a given ratio,
`0.5 * layerHeight * topWidth * ratio` on the top edge and
`maxTopEdgeArea + 0.5 * bottomWidth * layerHeight * (ratio - 1)` on the
right edge. -/
def calculateActualArea (layerHeight topWidth bottomWidth ratio : ℚ) : ℚ :=
  if ratio ≤ 1 then 1/2 * layerHeight * topWidth * ratio
  else 1/2 * layerHeight * topWidth + 1/2 * bottomWidth * layerHeight * (ratio - 1)

/-- Walk of `renderLayer` over one layer's segments, carrying the running
cumulative percent: each segment gets
`(calculateRatioForArea (acc/100), calculateRatioForArea ((acc+p)/100))`,
and the last segment's end ratio is overwritten with exactly 2 regardless
of the computed value. -/
def boundsFrom (layerHeight topWidth bottomWidth : ℚ) : ℚ → List ℚ → List (Option ℚ × Option ℚ)
  | acc, [_] =>
      [(calculateRatioForArea layerHeight topWidth bottomWidth (acc / 100), some 2)]
  | acc, p :: q :: rest =>
      (calculateRatioForArea layerHeight topWidth bottomWidth (acc / 100),
        calculateRatioForArea layerHeight topWidth bottomWidth ((acc + p) / 100)) ::
        boundsFrom layerHeight topWidth bottomWidth (acc + p) (q :: rest)
  | _, [] => []

/-- Start/end cut ratios of every segment of a layer, in order, starting
from cumulative percent 0. -/
def segmentBounds (layerHeight topWidth bottomWidth : ℚ) (percents : List ℚ) :
    List (Option ℚ × Option ℚ) :=
  boundsFrom layerHeight topWidth bottomWidth 0 percents

/-- A point of the SVG plane. -/
structure Pt where
  x : ℚ
  y : ℚ
  deriving DecidableEq, Repr

/-- Cut point for a ratio (`renderLayer`): on the top edge at
`topLeftX + topWidth * ratio` when `ratio ≤ 1`, else on the right edge at
vertical position `topY + layerHeight * (ratio - 1)`.  The trapezoid is
given by its top-left corner `(tlx, tly)`, top-right x `trx` and bottom y
`oy`; `topWidth = trx - tlx` and `layerHeight = oy - tly` as in the
source. -/
def ratioPoint (tlx tly trx oy ratio : ℚ) : Pt :=
  if ratio ≤ 1 then ⟨tlx + (trx - tlx) * ratio, tly⟩
  else ⟨trx, tly + (oy - tly) * (ratio - 1)⟩

/-- Polygon of one segment (`renderLayer`): classified by its two cut
ratios — both on the top edge gives a triangle, start on top and end on the
right edge gives a quadrilateral through the top-right corner, both on the
right edge gives a triangle.  `(ox, oy)` is the layer's bottom-left origin
corner. -/
def segmentPolygon (ox oy tlx tly trx startRatio endRatio : ℚ) : List Pt :=
  let startPoint := ratioPoint tlx tly trx oy startRatio
  let endPoint := ratioPoint tlx tly trx oy endRatio
  if startRatio ≤ 1 ∧ endRatio ≤ 1 then
    [⟨ox, oy⟩, startPoint, endPoint]
  else if startRatio ≤ 1 ∧ 1 < endRatio then
    [⟨ox, oy⟩, startPoint, ⟨trx, tly⟩, endPoint]
  else
    [⟨ox, oy⟩, startPoint, endPoint]

/-- Model of one layer's partitioning inputs: its `height` and optional
`percent` (`src/lib/chart-types.ts`). -/
structure LayerIn where
  height : ℚ
  percent : Option ℚ
  deriving DecidableEq, Repr

/-- `layers.some(layer => layer.percent !== undefined)` in the `geometry`
memo of the triangle chart. -/
def hasPercents (ls : List LayerIn) : Bool :=
  ls.any (fun l => l.percent.isSome)

/-- One layer's weight in the vertical partition: its percent (missing
read as 0) when any layer defines a percent, otherwise its height. -/
def layerWeight (hasP : Bool) (l : LayerIn) : ℚ :=
  if hasP then l.percent.getD 0 else l.height

/-- Total weight of all layers (`totalLayerHeight` in the source). -/
def totalWeight (ls : List LayerIn) : ℚ :=
  (ls.map (layerWeight (hasPercents ls))).sum

/-- Walk of the `geometry` memo over the layers, carrying `currentY`: each
layer spans `(currentY, currentY + span * (weight / total))` and the next
layer starts at that bottom.  Division is exact rational division; the
source produces NaN when `total = 0`, a case excluded by hypothesis in
every theorem below. -/
def partitionFrom (span total : ℚ) (hasP : Bool) : ℚ → List LayerIn → List (ℚ × ℚ)
  | _, [] => []
  | currentY, l :: rest =>
      let layerHeight := span * (layerWeight hasP l / total)
      (currentY, currentY + layerHeight) ::
        partitionFrom span total hasP (currentY + layerHeight) rest

/-- Layer boundaries of the `geometry` memo: the walk starts at the fan's
apex `endY` and the span is `startY - endY`. -/
def layerBoundaries (startY endY : ℚ) (ls : List LayerIn) : List (ℚ × ℚ) :=
  partitionFrom (startY - endY) (totalWeight ls) (hasPercents ls) endY ls

/-! Helper lemmas. -/

theorem sum_map_mul_const (l : List ℚ) (c : ℚ) :
    (l.map (fun x => x * c)).sum = l.sum * c := by
  induction l with
  | nil => simp
  | cons a t ih => simp [ih, add_mul]

theorem getLast?_cons_of_ne {α : Type} (a : α) (l : List α) (hl : l ≠ []) :
    (a :: l).getLast? = l.getLast? := by
  cases l with
  | nil => exact absurd rfl hl
  | cons b m => exact List.getLast?_cons_cons

theorem boundsFrom_ne_nil (h tw bw acc : ℚ) (ps : List ℚ) (hps : ps ≠ []) :
    boundsFrom h tw bw acc ps ≠ [] := by
  cases ps with
  | nil => exact absurd rfl hps
  | cons p rest =>
    cases rest with
    | nil => simp [boundsFrom]
    | cons q rs => simp [boundsFrom]

theorem boundsFrom_last (h tw bw : ℚ) (ps : List ℚ) :
    ∀ acc : ℚ, ps ≠ [] →
      ((boundsFrom h tw bw acc ps).getLast?).map Prod.snd = some (some 2) := by
  induction ps with
  | nil => exact fun acc hc => absurd rfl hc
  | cons p rest ih =>
    intro acc _
    cases rest with
    | nil => simp [boundsFrom]
    | cons q rs =>
      rw [show boundsFrom h tw bw acc (p :: q :: rs) =
          (calculateRatioForArea h tw bw (acc / 100),
            calculateRatioForArea h tw bw ((acc + p) / 100)) ::
            boundsFrom h tw bw (acc + p) (q :: rs) from rfl,
        getLast?_cons_of_ne _ _ (boundsFrom_ne_nil h tw bw (acc + p) (q :: rs) (by simp))]
      exact ih (acc + p) (by simp)

/-! Claim theorems. -/

/-- C10: the exported `normalizeSegments` of `chart-types` and the local
`normalizeSegments` of the draggable segment panel are extensionally equal:
they return element-wise identical results on every segment list, the empty
list included. -/
theorem normalize_implementations_agree (segs : List Segment) :
    normalizeSegments segs = panelNormalizeSegments segs := by
  cases segs with
  | nil => simp [normalizeSegments, panelNormalizeSegments]
  | cons a l => simp [normalizeSegments, panelNormalizeSegments]

/-- C3: `calculateRatioForArea` returns ratio 0 for every cumulative
fraction `f ≤ 0` and ratio 1 — not 2 — for every `f ≥ 1`, for every
trapezoid, even though the interior branch reaches ratios beyond 1 on the
right edge (witnessed by the concrete interior fraction 2/3 mapping to
3/2). -/
theorem ratio_boundary_clamp (h tw bw f : ℚ) :
    (f ≤ 0 → calculateRatioForArea h tw bw f = some 0) ∧
    (1 ≤ f → calculateRatioForArea h tw bw f = some 1 ∧
      calculateRatioForArea h tw bw f ≠ some 2) ∧
    calculateRatioForArea 100 200 400 (2/3) = some (3/2) ∧ (1 : ℚ) < 3/2 := by
  refine ⟨fun hf => ?_, fun hf => ?_, ?_, by norm_num⟩
  · simp [calculateRatioForArea, hf]
  · have hf0 : ¬ f ≤ 0 := by intro hc; linarith
    constructor
    · simp [calculateRatioForArea, hf0, hf]
    · simp [calculateRatioForArea, hf0, hf]
  · norm_num [calculateRatioForArea, jsdiv]

/-- Witness for C3 at the concrete boundary fractions 0 and 1. -/
theorem ratio_boundary_clamp_witness :
    calculateRatioForArea 100 200 400 0 = some 0 ∧
    calculateRatioForArea 100 200 400 1 = some 1 :=
  ⟨(ratio_boundary_clamp 100 200 400 0).1 le_rfl,
    ((ratio_boundary_clamp 100 200 400 1).2.1 le_rfl).1⟩

/-- C2: for every layer with at least one segment the end ratio of the
final segment is exactly 2 (the bottom-right corner), for every trapezoid
and every segment list, regardless of the ratio computed for its cumulative
end fraction. -/
theorem last_segment_end_ratio_eq_two (h tw bw : ℚ) (ps : List ℚ) (hne : ps ≠ []) :
    ((segmentBounds h tw bw ps).getLast?).map Prod.snd = some (some 2) :=
  boundsFrom_last h tw bw ps 0 hne

/-- Witness for C2 on a concrete two-segment layer. -/
theorem last_segment_end_ratio_eq_two_witness :
    ((segmentBounds 100 200 400 [30, 70]).getLast?).map Prod.snd = some (some 2) :=
  last_segment_end_ratio_eq_two 100 200 400 [30, 70] (by simp)

theorem applyUpdate_length : ∀ (xs : List ℚ) (i : ℕ) (c s : ℚ),
    (applyUpdate xs i c s).length = xs.length
  | [], _, _, _ => by simp [applyUpdate]
  | _ :: xs, 0, c, s => by simp [applyUpdate]
  | x :: xs, n + 1, c, s => by
      simp [applyUpdate, applyUpdate_length xs n c s]

theorem applyUpdate_getElem_target : ∀ (xs : List ℚ) (i : ℕ) (c s : ℚ), i < xs.length →
    (applyUpdate xs i c s)[i]? = some c
  | [], i, _, _, hlt => by simp at hlt
  | _ :: xs, 0, c, s, _ => by simp [applyUpdate]
  | x :: xs, n + 1, c, s, hlt => by
      simp only [applyUpdate, List.getElem?_cons_succ]
      exact applyUpdate_getElem_target xs n c s (by simpa using hlt)

theorem applyUpdate_getElem_other : ∀ (xs : List ℚ) (i j : ℕ) (c s : ℚ), j ≠ i →
    (applyUpdate xs i c s)[j]? = (xs[j]?).map (fun x => x * s)
  | [], _, _, _, _, _ => by simp [applyUpdate]
  | x :: xs, 0, 0, c, s, hne => absurd rfl hne
  | x :: xs, 0, j + 1, c, s, _ => by
      simp [applyUpdate]
  | x :: xs, n + 1, 0, c, s, _ => by simp [applyUpdate]
  | x :: xs, n + 1, j + 1, c, s, hne => by
      simp only [applyUpdate, List.getElem?_cons_succ]
      exact applyUpdate_getElem_other xs n j c s (by omega)

theorem applyUpdate_sum : ∀ (xs : List ℚ) (i : ℕ) (c s : ℚ), i < xs.length →
    (applyUpdate xs i c s).sum = c + s * sumExcept xs i
  | [], i, _, _, hlt => by simp at hlt
  | x :: xs, 0, c, s, _ => by
      simp only [applyUpdate, List.sum_cons, sumExcept, sum_map_mul_const]
      ring
  | x :: xs, n + 1, c, s, hlt => by
      have ih := applyUpdate_sum xs n c s (by simpa using hlt)
      simp only [applyUpdate, List.sum_cons, sumExcept, ih]
      ring

/-- C4: setting one item's percent — a segment within a layer
(`handleUpdateSegment`) or a layer within the chart
(`handleUpdateLayerPercent`, same algorithm on the percents read with
missing treated as 0) — clamps the new percent to `[0,100]`, writes the
clamped value at the target, multiplies every other item by
`scaleFactor = (100 - clamped) / otherTotal` (0 when that total is not
positive), and the results sum to exactly 100 whenever `otherTotal > 0` or
the clamped percent is 100. -/
theorem set_one_and_rescale_spec (ps : List ℚ) (i : ℕ) (p : ℚ) (hi : i < ps.length) :
    (updateSegmentPercent ps i p).length = ps.length ∧
    (updateSegmentPercent ps i p)[i]? = some (clampPercent p) ∧
    (∀ j, j ≠ i → (updateSegmentPercent ps i p)[j]? =
      (ps[j]?).map (fun x => x * scaleFactor (sumExcept ps i) (clampPercent p))) ∧
    (0 ≤ clampPercent p ∧ clampPercent p ≤ 100) ∧
    ((0 < sumExcept ps i ∨ clampPercent p = 100) →
      (updateSegmentPercent ps i p).sum = 100) ∧
    (∀ ls : List (Option ℚ), ls.map (fun o => o.getD 0) = ps →
      updateLayerPercent ls i p = updateSegmentPercent ps i p) := by
  refine ⟨applyUpdate_length ps i _ _,
    applyUpdate_getElem_target ps i _ _ hi,
    fun j hj => applyUpdate_getElem_other ps i j _ _ hj,
    ⟨le_max_left 0 _, max_le (by norm_num) (min_le_left 100 p)⟩,
    fun hcase => ?_,
    fun ls hls => by simp [updateLayerPercent, updateSegmentPercent, hls]⟩
  rw [show updateSegmentPercent ps i p =
      applyUpdate ps i (clampPercent p) (scaleFactor (sumExcept ps i) (clampPercent p))
      from rfl,
    applyUpdate_sum ps i _ _ hi]
  rcases hcase with hpos | hc
  · rw [scaleFactor, if_pos hpos, div_mul_cancel₀ _ (ne_of_gt hpos)]
    ring
  · rw [scaleFactor, hc]
    by_cases hpos : 0 < sumExcept ps i
    · rw [if_pos hpos]
      field_simp
    · rw [if_neg hpos]
      ring

/-- Witness for C4: updating the first of three segments to 60 percent. -/
theorem set_one_and_rescale_witness :
    (updateSegmentPercent [20, 30, 50] 0 60).sum = 100 ∧
    (updateSegmentPercent [20, 30, 50] 0 60)[0]? = some (clampPercent 60) :=
  ⟨(set_one_and_rescale_spec [20, 30, 50] 0 60 (by norm_num)).2.2.2.2.1
      (Or.inl (by norm_num [sumExcept])),
    (set_one_and_rescale_spec [20, 30, 50] 0 60 (by norm_num)).2.1⟩

/-- C8 counterexample: inserting the default 10-percent segment into a
layer whose existing segments total 0 (here a single 0-percent segment)
leaves the existing segments at 0, so the post-insert percents sum to 10,
not 100 — the claimed unconditional sum-to-100 guarantee fails. -/
theorem insert_default_share_cex :
    addSegmentPercents [(0 : ℚ)] = [0, 10] ∧
    (addSegmentPercents [(0 : ℚ)]).sum = 10 ∧ (10 : ℚ) ≠ 100 := by
  refine ⟨?_, ?_, by norm_num⟩ <;> norm_num [addSegmentPercents]

/-- C8 as amended: inserting a new segment with the default share 10 gives
the new item 10 percent, scales every existing segment by
`(100 - 10) / existingTotal` (0 when the existing total is not positive),
appends the new item after the existing ones, and makes the percents sum to
100 whenever the pre-insertion total is positive (when it is 0 the existing
items stay at 0 and the sum is 10). -/
theorem insert_default_share_amended (ps : List ℚ) :
    (addSegmentPercents ps).length = ps.length + 1 ∧
    (addSegmentPercents ps).getLast? = some 10 ∧
    (∀ j, j < ps.length → (addSegmentPercents ps)[j]? =
      (ps[j]?).map (fun x => x * (if 0 < ps.sum then (100 - 10) / ps.sum else 0))) ∧
    (0 < ps.sum → (addSegmentPercents ps).sum = 100) := by
  refine ⟨by simp [addSegmentPercents], ?_, fun j hj => ?_, fun hpos => ?_⟩
  · rw [show addSegmentPercents ps =
        ps.map (fun x => x * (if 0 < ps.sum then (100 - 10) / ps.sum else 0)) ++ [10]
        from rfl]
    exact List.getLast?_concat _
  · rw [show addSegmentPercents ps =
        ps.map (fun x => x * (if 0 < ps.sum then (100 - 10) / ps.sum else 0)) ++ [10]
        from rfl]
    simp [List.getElem?_append, hj]
  · rw [show addSegmentPercents ps =
        ps.map (fun x => x * (if 0 < ps.sum then (100 - 10) / ps.sum else 0)) ++ [10]
        from rfl]
    rw [List.sum_append, sum_map_mul_const, if_pos hpos, mul_comm,
      div_mul_cancel₀ _ (ne_of_gt hpos)]
    norm_num

/-- Witness for C8 on a layer whose two segments total 90. -/
theorem insert_default_share_witness :
    (addSegmentPercents [45, 45]).sum = 100 ∧
    (addSegmentPercents [45, 45]).getLast? = some 10 :=
  ⟨(insert_default_share_amended [45, 45]).2.2.2 (by norm_num),
    (insert_default_share_amended [45, 45]).2.1⟩

/-- C5: `normalizeSegments` keeps the length and order, replaces each
percent by `original / total * 100` whenever the total is nonzero — so the
results sum to exactly 100 for a positive total — and passes a zero-total
list through unchanged. -/
theorem normalize_spec (segs : List Segment) (hnn : ∀ s ∈ segs, 0 ≤ s.percent) :
    (normalizeSegments segs).length = segs.length ∧
    ((segs.map Segment.percent).sum = 0 → normalizeSegments segs = segs) ∧
    ((segs.map Segment.percent).sum ≠ 0 → ∀ (i : ℕ) (s : Segment), segs[i]? = some s →
      (normalizeSegments segs)[i]? =
        some { s with percent := s.percent / (segs.map Segment.percent).sum * 100 }) ∧
    (0 < (segs.map Segment.percent).sum →
      ((normalizeSegments segs).map Segment.percent).sum = 100) := by
  by_cases ht : (segs.map Segment.percent).sum = 0
  · exact ⟨by simp [normalizeSegments, ht], fun _ => by simp [normalizeSegments, ht],
      fun hne => absurd ht hne, fun hpos => absurd ht (ne_of_gt hpos)⟩
  · have hunfold : normalizeSegments segs =
        segs.map (fun s =>
          { s with percent := s.percent / (segs.map Segment.percent).sum * 100 }) := by
      simp [normalizeSegments, ht]
    refine ⟨by simp [hunfold], fun hc => absurd hc ht,
      fun _ i s hs => by simp [hunfold, List.getElem?_map, hs], fun hpos => ?_⟩
    rw [hunfold, List.map_map]
    have hcomp : (Segment.percent ∘ fun s =>
        { s with percent := s.percent / (segs.map Segment.percent).sum * 100 }) =
        fun s => Segment.percent s * (100 / (segs.map Segment.percent).sum) := by
      funext s
      simp [Function.comp]
      ring
    rw [hcomp, show (segs.map fun s =>
        Segment.percent s * (100 / (segs.map Segment.percent).sum)) =
        (segs.map Segment.percent).map
          (fun x => x * (100 / (segs.map Segment.percent).sum)) by
      rw [List.map_map]; rfl]
    rw [sum_map_mul_const, mul_comm,
      div_mul_cancel₀ _ (ne_of_gt hpos)]

/-- Witness for C5 on a concrete two-segment list totalling 80. -/
theorem normalize_spec_witness :
    (normalizeSegments
      [⟨"a", "Common", 20, "#111111"⟩, ⟨"b", "Options", 60, "#222222"⟩]).length = 2 ∧
    ((normalizeSegments
      [⟨"a", "Common", 20, "#111111"⟩, ⟨"b", "Options", 60, "#222222"⟩]).map
        Segment.percent).sum = 100 := by
  refine ⟨(normalize_spec _ ?_).1, (normalize_spec _ ?_).2.2.2 (by norm_num)⟩ <;>
    · intro s hs
      fin_cases hs <;> norm_num

/-- C6: a segment's polygon is classified by its two cut ratios — both at
most 1 gives the triangle through the two top-edge points, start at most 1
and end beyond 1 gives the quadrilateral through the top-right corner and
the right-edge end point, and both beyond 1 gives the triangle through the
two right-edge points, always fanning out of the layer's origin corner. -/
theorem polygon_classification (ox oy tlx tly trx s e : ℚ) :
    (s ≤ 1 → e ≤ 1 → segmentPolygon ox oy tlx tly trx s e =
      [⟨ox, oy⟩, ⟨tlx + (trx - tlx) * s, tly⟩, ⟨tlx + (trx - tlx) * e, tly⟩]) ∧
    (s ≤ 1 → 1 < e → segmentPolygon ox oy tlx tly trx s e =
      [⟨ox, oy⟩, ⟨tlx + (trx - tlx) * s, tly⟩, ⟨trx, tly⟩,
        ⟨trx, tly + (oy - tly) * (e - 1)⟩]) ∧
    (1 < s → 1 < e → segmentPolygon ox oy tlx tly trx s e =
      [⟨ox, oy⟩, ⟨trx, tly + (oy - tly) * (s - 1)⟩,
        ⟨trx, tly + (oy - tly) * (e - 1)⟩]) := by
  refine ⟨fun hs he => ?_, fun hs he => ?_, fun hs he => ?_⟩
  · simp [segmentPolygon, ratioPoint, hs, he]
  · simp [segmentPolygon, ratioPoint, hs, he, not_le.mpr he]
  · simp [segmentPolygon, ratioPoint, not_le.mpr hs, not_le.mpr he]

/-- Witness for C6: one concrete instance of each of the three shapes. -/
theorem polygon_classification_witness :
    segmentPolygon 0 10 2 0 12 (1/4) (1/2) =
      [⟨0, 10⟩, ⟨2 + (12 - 2) * (1/4), 0⟩, ⟨2 + (12 - 2) * (1/2), 0⟩] ∧
    segmentPolygon 0 10 2 0 12 (1/2) (3/2) =
      [⟨0, 10⟩, ⟨2 + (12 - 2) * (1/2), 0⟩, ⟨12, 0⟩, ⟨12, 0 + (10 - 0) * (3/2 - 1)⟩] ∧
    segmentPolygon 0 10 2 0 12 (5/4) (7/4) =
      [⟨0, 10⟩, ⟨12, 0 + (10 - 0) * (5/4 - 1)⟩, ⟨12, 0 + (10 - 0) * (7/4 - 1)⟩] :=
  ⟨(polygon_classification 0 10 2 0 12 (1/4) (1/2)).1 (by norm_num) (by norm_num),
    (polygon_classification 0 10 2 0 12 (1/2) (3/2)).2.1 (by norm_num) (by norm_num),
    (polygon_classification 0 10 2 0 12 (5/4) (7/4)).2.2 (by norm_num) (by norm_num)⟩

/-- C9 counterexample: a zero-height layer (`layerHeight = 0`) with the
interior cumulative fraction 1/2 drives `calculateRatioForArea` into the
division `0 / 0`, whose JavaScript value is NaN (modelled as `none`), so
the cut ratio — and with it the polygon coordinates built from it — is not
a well-defined finite number. -/
theorem zero_height_ratio_nan : calculateRatioForArea 0 1 1 (1/2) = none := by
  norm_num [calculateRatioForArea, jsdiv]

/-- C9 as amended: for a zero-width trapezoid (`topWidth = 0`) with
positive height and positive bottom width, `calculateRatioForArea` is total
and returns a finite ratio in `[0,2]` for every fraction, so the polygon
construction receives well-defined finite coordinates; but for a zero-area
trapezoid — `layerHeight = 0`, or `topWidth = bottomWidth = 0` — every
interior fraction evaluates `0 / 0` and yields an undefined (NaN) ratio. -/
theorem degenerate_trapezoid_amended :
    (∀ h bw f : ℚ, 0 < h → 0 < bw →
      ∃ r : ℚ, calculateRatioForArea h 0 bw f = some r ∧ 0 ≤ r ∧ r ≤ 2) ∧
    (∀ tw bw f : ℚ, 0 < f → f < 1 → calculateRatioForArea 0 tw bw f = none) ∧
    (∀ h f : ℚ, 0 < f → f < 1 → calculateRatioForArea h 0 0 f = none) := by
  refine ⟨fun h bw f hh hbw => ?_, fun tw bw f hf0 hf1 => ?_, fun h f hf0 hf1 => ?_⟩
  · by_cases hf0 : f ≤ 0
    · exact ⟨0, by simp [calculateRatioForArea, hf0], le_rfl, by norm_num⟩
    by_cases hf1 : 1 ≤ f
    · exact ⟨1, by simp [calculateRatioForArea, hf0, hf1], by norm_num, by norm_num⟩
    push_neg at hf0 hf1
    have htgt : 0 < f * (1/2 * h * (0 + bw)) := by positivity
    have hd : (0 : ℚ) < 1/2 * bw * h := by positivity
    refine ⟨1 + min 1 ((f * (1/2 * h * (0 + bw)) - 1/2 * h * 0) / (1/2 * bw * h)),
      ?_, ?_, ?_⟩
    · simp only [calculateRatioForArea, if_neg (not_le.mpr hf0), if_neg (not_le.mpr hf1)]
      rw [if_neg (by simpa using not_le.mpr htgt), jsdiv, if_neg (ne_of_gt hd)]
      simp
    · have hnum : (0 : ℚ) ≤ f * (1/2 * h * (0 + bw)) - 1/2 * h * 0 := by nlinarith [htgt]
      have : (0 : ℚ) ≤ min 1 ((f * (1/2 * h * (0 + bw)) - 1/2 * h * 0) / (1/2 * bw * h)) :=
        le_min (by norm_num) (div_nonneg hnum hd.le)
      linarith
    · have : min 1 ((f * (1/2 * h * (0 + bw)) - 1/2 * h * 0) / (1/2 * bw * h)) ≤ 1 :=
        min_le_left _ _
      linarith
  · simp only [calculateRatioForArea, if_neg (not_le.mpr hf0), if_neg (not_le.mpr hf1)]
    norm_num [jsdiv]
  · simp only [calculateRatioForArea, if_neg (not_le.mpr hf0), if_neg (not_le.mpr hf1)]
    norm_num [jsdiv]

/-- Witness for C9: the zero-width trapezoid of height 1 at fraction 1/2,
and a zero-area trapezoid at fraction 1/3. -/
theorem degenerate_trapezoid_witness :
    (∃ r : ℚ, calculateRatioForArea 1 0 1 (1/2) = some r ∧ 0 ≤ r ∧ r ≤ 2) ∧
    calculateRatioForArea 0 5 7 (1/3) = none ∧
    calculateRatioForArea 1 0 0 (1/3) = none :=
  ⟨(degenerate_trapezoid_amended.1 1 1 (1/2) (by norm_num) (by norm_num)),
    degenerate_trapezoid_amended.2.1 5 7 (1/3) (by norm_num) (by norm_num),
    degenerate_trapezoid_amended.2.2 1 (1/3) (by norm_num) (by norm_num)⟩

theorem partitionFrom_length : ∀ (ls : List LayerIn) (span total : ℚ) (hasP : Bool)
    (cur : ℚ), (partitionFrom span total hasP cur ls).length = ls.length
  | [], _, _, _, _ => rfl
  | l :: rest, span, total, hasP, cur => by
      simp only [partitionFrom, List.length_cons]
      rw [partitionFrom_length rest span total hasP _]

theorem partitionFrom_head (span total : ℚ) (hasP : Bool) (cur : ℚ) (l : LayerIn)
    (rest : List LayerIn) :
    (partitionFrom span total hasP cur (l :: rest))[0]? =
      some (cur, cur + span * (layerWeight hasP l / total)) := by
  simp [partitionFrom]

theorem partitionFrom_chain : ∀ (ls : List LayerIn) (span total : ℚ) (hasP : Bool)
    (cur : ℚ) (i : ℕ) (a b : ℚ × ℚ),
    (partitionFrom span total hasP cur ls)[i]? = some a →
    (partitionFrom span total hasP cur ls)[i + 1]? = some b → b.1 = a.2
  | [], _, _, _, _, _, _, _ => by simp [partitionFrom]
  | l :: rest, span, total, hasP, cur, 0, a, b => by
      intro ha hb
      simp only [partitionFrom, List.getElem?_cons_zero, Option.some.injEq] at ha
      simp only [partitionFrom, List.getElem?_cons_succ] at hb
      cases rest with
      | nil => simp [partitionFrom] at hb
      | cons m ms =>
          rw [partitionFrom_head] at hb
          rw [← ha, ← Option.some.injEq _ b |>.mp hb]
  | l :: rest, span, total, hasP, cur, i + 1, a, b => by
      intro ha hb
      simp only [partitionFrom, List.getElem?_cons_succ] at ha hb
      exact partitionFrom_chain rest span total hasP _ i a b ha hb

theorem partitionFrom_height : ∀ (ls : List LayerIn) (span total : ℚ) (hasP : Bool)
    (cur : ℚ) (i : ℕ) (l : LayerIn) (bi : ℚ × ℚ),
    ls[i]? = some l → (partitionFrom span total hasP cur ls)[i]? = some bi →
    bi.2 - bi.1 = span * (layerWeight hasP l / total)
  | [], _, _, _, _, _, _, _ => by simp
  | l0 :: rest, span, total, hasP, cur, 0, l, bi => by
      intro hl hb
      simp only [List.getElem?_cons_zero, Option.some.injEq] at hl
      simp only [partitionFrom, List.getElem?_cons_zero, Option.some.injEq] at hb
      rw [← hl, ← hb]
      ring
  | l0 :: rest, span, total, hasP, cur, i + 1, l, bi => by
      intro hl hb
      simp only [List.getElem?_cons_succ] at hl
      simp only [partitionFrom, List.getElem?_cons_succ] at hb
      exact partitionFrom_height rest span total hasP _ i l bi hl hb

/-- C7: in the vertical partition of the fan, a layer's weight is its
percent (missing read as 0) as soon as any layer defines one, else its
height; each layer spans the fraction `weight / totalWeight` of the
vertical span, the layers are walked in array order with the first layer's
top at the fan's apex `endY`, and each subsequent layer's top equals the
previous layer's bottom.  The positivity hypothesis on the total weight
keeps the model inside the domain where the source's division is finite. -/
theorem layer_partition_spec (startY endY : ℚ) (ls : List LayerIn)
    (htot : 0 < totalWeight ls) :
    (layerBoundaries startY endY ls).length = ls.length ∧
    (∀ l₀ : LayerIn, ls[0]? = some l₀ → (layerBoundaries startY endY ls)[0]? =
      some (endY, endY +
        (startY - endY) * (layerWeight (hasPercents ls) l₀ / totalWeight ls))) ∧
    (∀ (i : ℕ) (a b : ℚ × ℚ), (layerBoundaries startY endY ls)[i]? = some a →
      (layerBoundaries startY endY ls)[i + 1]? = some b → b.1 = a.2) ∧
    (∀ (i : ℕ) (l : LayerIn) (bi : ℚ × ℚ), ls[i]? = some l →
      (layerBoundaries startY endY ls)[i]? = some bi →
      bi.2 - bi.1 = (startY - endY) * (layerWeight (hasPercents ls) l / totalWeight ls)) ∧
    (∀ l ∈ ls, layerWeight (hasPercents ls) l =
      if hasPercents ls then l.percent.getD 0 else l.height) := by
  refine ⟨partitionFrom_length ls _ _ _ _, fun l₀ hl₀ => ?_,
    fun i a b ha hb => partitionFrom_chain ls _ _ _ _ i a b ha hb,
    fun i l bi hl hb => partitionFrom_height ls _ _ _ _ i l bi hl hb,
    fun l _ => rfl⟩
  cases ls with
  | nil => simp at hl₀
  | cons m ms =>
      simp only [List.getElem?_cons_zero, Option.some.injEq] at hl₀
      rw [layerBoundaries, ← hl₀, partitionFrom_head]

/-- Witness for C7 on a concrete two-layer chart using layer percents. -/
theorem layer_partition_spec_witness :
    (layerBoundaries 100 20 [⟨100, some 30⟩, ⟨50, some 60⟩]).length = 2 ∧
    (layerBoundaries 100 20 [⟨100, some 30⟩, ⟨50, some 60⟩])[0]? =
      some (20, 20 + (100 - 20) *
        (layerWeight (hasPercents [⟨100, some 30⟩, ⟨50, some 60⟩]) ⟨100, some 30⟩ /
          totalWeight [⟨100, some 30⟩, ⟨50, some 60⟩])) :=
  ⟨(layer_partition_spec 100 20 [⟨100, some 30⟩, ⟨50, some 60⟩]
      (by norm_num [totalWeight, hasPercents, layerWeight])).1,
    (layer_partition_spec 100 20 [⟨100, some 30⟩, ⟨50, some 60⟩]
      (by norm_num [totalWeight, hasPercents, layerWeight])).2.1 ⟨100, some 30⟩ rfl⟩

theorem actualArea_two (h tw bw : ℚ) :
    calculateActualArea h tw bw 2 = 1/2 * h * (tw + bw) := by
  rw [calculateActualArea, if_neg (by norm_num)]
  ring

theorem ratio_inverts_area (h tw bw f : ℚ) (hh : 0 < h) (htw : 0 < tw)
    (hbw : 0 ≤ bw) (hf0 : 0 ≤ f) (hf1 : f < 1) :
    ∃ r : ℚ, calculateRatioForArea h tw bw f = some r ∧
      calculateActualArea h tw bw r = f * (1/2 * h * (tw + bw)) := by
  rcases eq_or_lt_of_le hf0 with hf | hf
  · refine ⟨0, ?_, ?_⟩
    · simp [calculateRatioForArea, ← hf]
    · norm_num [calculateActualArea, ← hf]
  · have hn0 : ¬ f ≤ 0 := not_le.mpr hf
    have hn1 : ¬ (1 : ℚ) ≤ f := not_le.mpr hf1
    have hM : (0 : ℚ) < 1/2 * h * tw := by positivity
    by_cases hcase : f * (1/2 * h * (tw + bw)) ≤ 1/2 * h * tw
    · refine ⟨f * (1/2 * h * (tw + bw)) / (1/2 * h * tw), ?_, ?_⟩
      · simp only [calculateRatioForArea, if_neg hn0, if_neg hn1]
        rw [if_pos hcase, jsdiv, if_neg (ne_of_gt hM)]
      · have hr1 : f * (1/2 * h * (tw + bw)) / (1/2 * h * tw) ≤ 1 :=
          (div_le_one hM).mpr hcase
        rw [calculateActualArea, if_pos hr1, mul_div_assoc]
        field_simp
        ring
    · push_neg at hcase
      have hbwpos : 0 < bw := by
        by_contra hb
        push_neg at hb
        have hbw0 : bw = 0 := le_antisymm hb hbw
        rw [hbw0] at hcase
        nlinarith [mul_pos hh htw]
      have hd : (0 : ℚ) < 1/2 * bw * h := by positivity
      have hT : (0 : ℚ) < 1/2 * h * (tw + bw) := by positivity
      have hs1 : (f * (1/2 * h * (tw + bw)) - 1/2 * h * tw) / (1/2 * bw * h) < 1 := by
        rw [div_lt_one hd]
        nlinarith [mul_pos hT (sub_pos.mpr hf1)]
      have hs0 : 0 < (f * (1/2 * h * (tw + bw)) - 1/2 * h * tw) / (1/2 * bw * h) :=
        div_pos (by linarith) hd
      refine ⟨1 + min 1 ((f * (1/2 * h * (tw + bw)) - 1/2 * h * tw) / (1/2 * bw * h)),
        ?_, ?_⟩
      · simp only [calculateRatioForArea, if_neg hn0, if_neg hn1]
        rw [if_neg (not_le.mpr hcase), jsdiv, if_neg (ne_of_gt hd)]
        simp
      · rw [min_eq_right hs1.le]
        rw [calculateActualArea, if_neg (by intro hc; linarith)]
        rw [show (1 + (f * (1/2 * h * (tw + bw)) - 1/2 * h * tw) / (1/2 * bw * h) - 1) =
            (f * (1/2 * h * (tw + bw)) - 1/2 * h * tw) / (1/2 * bw * h) by ring]
        rw [mul_div_cancel₀ _ (ne_of_gt hd)]
        ring

theorem boundsFrom_getElem : ∀ (ps : List ℚ) (h tw bw acc : ℚ) (i : ℕ),
    i < ps.length →
    (boundsFrom h tw bw acc ps)[i]? =
      some (calculateRatioForArea h tw bw ((acc + (ps.take i).sum) / 100),
        if i = ps.length - 1 then some 2
        else calculateRatioForArea h tw bw ((acc + (ps.take (i + 1)).sum) / 100))
  | [], _, _, _, _, i, hi => by simp at hi
  | [p], h, tw, bw, acc, 0, _ => by
      simp [boundsFrom]
  | [p], h, tw, bw, acc, i + 1, hi => by
      simp at hi
  | p :: q :: rest, h, tw, bw, acc, 0, _ => by
      simp only [boundsFrom, List.getElem?_cons_zero, List.length_cons,
        List.take_succ_cons, List.take_zero, List.sum_cons, List.sum_nil,
        Option.some.injEq]
      rw [if_neg (by omega)]
      norm_num
  | p :: q :: rest, h, tw, bw, acc, i + 1, hi => by
      simp only [boundsFrom, List.getElem?_cons_succ]
      rw [boundsFrom_getElem (q :: rest) h tw bw (acc + p) i (by simpa using hi)]
      have h1 : acc + p + ((q :: rest).take i).sum =
          acc + ((p :: q :: rest).take (i + 1)).sum := by
        simp [List.take_succ_cons]
        ring
      have h2 : acc + p + ((q :: rest).take (i + 1)).sum =
          acc + ((p :: q :: rest).take (i + 2)).sum := by
        simp [List.take_succ_cons]
        ring
      have h3 : (i = (q :: rest).length - 1) ↔
          (i + 1 = (p :: q :: rest).length - 1) := by
        simp only [List.length_cons]
        omega
      rw [h1, h2, if_congr h3 rfl rfl]

/-- C1 counterexample: for the trapezoid `topWidth = 200`,
`bottomWidth = 400`, `layerHeight = 100` and the segment list `[100, 0]` —
non-negative percents summing to 100 — the first segment's cut ratios are
`(0, 1)` (the `f ≥ 1` clamp returns 1, not 2), so its area fraction is
1/3 while its percent demands 1.00, far outside the 0.001 tolerance. -/
theorem tessellation_area_fidelity_cex :
    segmentBounds 100 200 400 [(100 : ℚ), 0] = [(some 0, some 1), (some 1, some 2)] ∧
    ¬ |(calculateActualArea 100 200 400 1 - calculateActualArea 100 200 400 0) /
        (1/2 * 100 * (200 + 400)) - 100 / 100| ≤ 1/1000 := by
  constructor
  · norm_num [segmentBounds, boundsFrom, calculateRatioForArea, jsdiv]
  · norm_num [calculateActualArea, abs_le]

/-- C1 as amended: for every trapezoid with positive `layerHeight`,
positive `topWidth` and non-negative `bottomWidth`, and every ordered list
of non-negative segment percents summing to 100 in which no proper prefix
already sums to 100 (the condition the counterexample `[100, 0]` violates),
every segment's cut ratios are defined and
`actualArea(endRatio) - actualArea(startRatio)` divided by the total
trapezoid area `0.5 * layerHeight * (topWidth + bottomWidth)` equals the
segment's `percent / 100` within 0.001 (indeed exactly). -/
theorem tessellation_area_fidelity (h tw bw : ℚ) (ps : List ℚ)
    (hh : 0 < h) (htw : 0 < tw) (hbw : 0 ≤ bw)
    (hnn : ∀ p ∈ ps, 0 ≤ p) (hsum : ps.sum = 100)
    (hpre : ∀ n, n < ps.length → (ps.take n).sum < 100)
    (i : ℕ) (pc : ℚ) (hi : i < ps.length) (hpc : ps[i]? = some pc) :
    ∃ s e : ℚ, (segmentBounds h tw bw ps)[i]? = some (some s, some e) ∧
      |(calculateActualArea h tw bw e - calculateActualArea h tw bw s) /
          (1/2 * h * (tw + bw)) - pc / 100| ≤ 1/1000 := by
  have hT : (0 : ℚ) < 1/2 * h * (tw + bw) := by positivity
  have hbounds := boundsFrom_getElem ps h tw bw 0 i hi
  have hgi : ps[i] = pc := by
    rw [List.getElem?_eq_getElem hi, Option.some.injEq] at hpc
    exact hpc
  have htake : (ps.take (i + 1)).sum = (ps.take i).sum + pc := by
    rw [List.sum_take_succ ps i hi, hgi]
  have hs0 : (0 : ℚ) ≤ (ps.take i).sum :=
    List.sum_nonneg (fun x hx => hnn x (List.take_subset i ps hx))
  have hsf : (ps.take i).sum / 100 < 1 := by
    rw [div_lt_one (by norm_num)]
    exact hpre i hi
  obtain ⟨s, hseq, hsarea⟩ := ratio_inverts_area h tw bw ((ps.take i).sum / 100)
    hh htw hbw (by positivity) hsf
  by_cases hlast : i = ps.length - 1
  · refine ⟨s, 2, ?_, ?_⟩
    · rw [show (segmentBounds h tw bw ps)[i]? = (boundsFrom h tw bw 0 ps)[i]? from rfl,
        hbounds, if_pos hlast, zero_add, hseq]
    · have hfs_pc : (ps.take i).sum + pc = 100 := by
        have hlen : i + 1 = ps.length := by omega
        have hall : (ps.take (i + 1)).sum = ps.sum := by
          rw [hlen, List.take_length]
        rw [htake, hsum] at hall
        exact hall
      rw [actualArea_two, hsarea,
        show 1/2 * h * (tw + bw) - (ps.take i).sum / 100 * (1/2 * h * (tw + bw)) =
          (1 - (ps.take i).sum / 100) * (1/2 * h * (tw + bw)) by ring,
        mul_div_assoc, div_self (ne_of_gt hT), mul_one,
        show (1 : ℚ) - (ps.take i).sum / 100 - pc / 100 =
          (100 - ((ps.take i).sum + pc)) / 100 by ring,
        hfs_pc]
      norm_num
  · have hi1 : i + 1 < ps.length := by omega
    have hfe : (ps.take (i + 1)).sum / 100 < 1 := by
      rw [div_lt_one (by norm_num)]
      exact hpre (i + 1) hi1
    have hfe0 : (0 : ℚ) ≤ (ps.take (i + 1)).sum :=
      List.sum_nonneg (fun x hx => hnn x (List.take_subset (i + 1) ps hx))
    obtain ⟨e, heeq, hearea⟩ := ratio_inverts_area h tw bw ((ps.take (i + 1)).sum / 100)
      hh htw hbw (by positivity) hfe
    refine ⟨s, e, ?_, ?_⟩
    · rw [show (segmentBounds h tw bw ps)[i]? = (boundsFrom h tw bw 0 ps)[i]? from rfl,
        hbounds, if_neg hlast, zero_add, zero_add, hseq, heeq]
    · rw [hsarea, hearea, htake,
        show ((ps.take i).sum + pc) / 100 * (1/2 * h * (tw + bw)) -
            (ps.take i).sum / 100 * (1/2 * h * (tw + bw)) =
          pc / 100 * (1/2 * h * (tw + bw)) by ring,
        mul_div_assoc, div_self (ne_of_gt hT), mul_one]
      norm_num

/-- Witness for C1 on the spec's own example: trapezoid `(100, 200, 400)`
with segments `[30, 30, 40]`, first segment. -/
theorem tessellation_area_fidelity_witness :
    ∃ s e : ℚ, (segmentBounds 100 200 400 [30, 30, 40])[0]? = some (some s, some e) ∧
      |(calculateActualArea 100 200 400 e - calculateActualArea 100 200 400 s) /
          (1/2 * 100 * (200 + 400)) - 30 / 100| ≤ 1/1000 :=
  tessellation_area_fidelity 100 200 400 [30, 30, 40] (by norm_num) (by norm_num)
    (by norm_num) (by intro p hp; fin_cases hp <;> norm_num) (by norm_num)
    (by
      intro n hn
      simp only [List.length_cons, List.length_nil] at hn
      interval_cases n <;>
        norm_num [List.take_succ_cons, List.take_zero])
    0 30 (by norm_num) rfl

end CapStruct
